import Mathlib

/-!
Shallow embedding of the Position Reconstruction Engine and Aggregation
Engine of the trading-journal backend (src/backend/main.py).

Python floats are modelled as rationals, timestamps as integers (epoch
seconds; pandas NaT is modelled as none), and the insertion-ordered
Python dict of open lots as an association list.  Python operations that
can raise ZeroDivisionError are modelled in the Option monad: a run that
would raise returns none.
-/

/-- Truncated integer part of a rational, modelling the Python builtin
int() applied to a float (truncation toward zero). -/
def intTrunc (q : ℚ) : ℤ := if q < 0 then ⌈q⌉ else ⌊q⌋

/-- Banker's rounding to 2 decimal places, modelling the Python builtin
round(x, 2) used on every emitted monetary / percentage value. -/
def round2 (x : ℚ) : ℚ :=
  let y := 100 * x
  let f := ⌊y⌋
  let d : ℚ := y - (f : ℚ)
  let n : ℤ :=
    if d < 1/2 then f
    else if 1/2 < d then f + 1
    else if f % 2 = 0 then f else f + 1
  (n : ℚ) / 100

/-- Substring test on character lists: does the needle occur in the
haystack?  Models the Python expression needle in s. -/
def startsL : List Char → List Char → Bool
  | [], _ => true
  | _ :: _, [] => false
  | a :: as, b :: bs => a = b && startsL as bs

/-- Recursive worker for containsSub. -/
def containsL (n : List Char) : List Char → Bool
  | [] => n.isEmpty
  | c :: rest => startsL n (c :: rest) || containsL n rest

/-- Python needle in s on strings. -/
def containsSub (needle s : String) : Bool := containsL needle.data s.data

/-- Models the Python pair.replace("-", "") (BTC-USDT becomes BTCUSDT). -/
def stripDash (s : String) : String := ⟨s.data.filter (fun c => c ≠ '-')⟩

/-- Models the Python str.upper() used on the Side column. -/
def upperStr (s : String) : String := ⟨s.data.map Char.toUpper⟩

/-- Lookup in an association list (Python: open_positions.get /
key in open_positions). -/
def lookupA {α : Type} (k : String) : List (String × α) → Option α
  | [] => none
  | (k', v) :: t => if k' = k then some v else lookupA k t

/-- In-place update of the value stored at a key (Python: mutating the
dict entry; insertion order is preserved). -/
def setA {α : Type} (k : String) (v : α) : List (String × α) → List (String × α)
  | [] => []
  | (k', v') :: t => if k' = k then (k', v) :: t else (k', v') :: setA k v t

/-- Removal of a key (Python: del open_positions[key]). -/
def removeA {α : Type} (k : String) (l : List (String × α)) : List (String × α) :=
  l.filter (fun kv => kv.1 ≠ k)

/-- Content tuple that the Python code feeds (as a formatted string) to
hashlib.md5(...).hexdigest()[:16] to obtain a position identity.  The
hash is a pure function of this content, so identities are modelled by
the hashed content itself: openLot carries
(pair, direction, entry time, fill price, fill quantity) — the string
f"{pair}_{dir}_{time}_{price}_{qty}" of main.py lines 88/115/278 — and
closedPos carries (pair, direction, entry time, exit time, fill
quantity, fill price) — lines 161/210. -/
inductive PosId : Type
  | openLot (pair dir : String) (time : ℤ) (price qty : ℚ)
  | closedPos (pair dir : String) (entryTime exitTime : ℤ) (qty price : ℚ)
  deriving DecidableEq, Repr

/-- An emitted position record (the dict appended to the positions list
by parse_bingx_futures / parse_simple_csv).  Keys that are only present
on some emitted records (exit_time, exit_fee, total_quantity) are
Option-valued. -/
structure Position : Type where
  id : PosId
  symbol : String
  pair : String
  direction : String
  entry_time : ℤ
  entry_price : ℚ
  quantity : ℚ
  entry_fee : ℚ
  leverage : ℤ
  total_quantity : Option ℚ
  exit_time : Option ℤ
  exit_price : ℚ
  closed_at : ℤ
  exit_fee : Option ℚ
  fees : ℚ
  duration_seconds : ℤ
  net_pnl : ℚ
  roi_percent : ℚ
  status : String
  deriving DecidableEq, Repr

/-- An open lot in the futures-dialect open_positions table. -/
structure Lot : Type where
  id : PosId
  symbol : String
  pair : String
  direction : String
  entry_time : ℤ
  entry_price : ℚ
  quantity : ℚ
  entry_fee : ℚ
  leverage : ℤ
  total_quantity : ℚ
  deriving DecidableEq, Repr

/-- A futures-dialect input row, with the numeric coercions of main.py
lines 64-78 already applied upstream (leverage with the X suffix
stripped, realized PNL with a blank / NaN / unit-suffixed string
coerced to a number, 0 when absent); time is none for an unparseable
timestamp (NaT). -/
structure FRow : Type where
  pair : String
  ttype : String
  leverage : ℚ
  dealPrice : ℚ
  quantity : ℚ
  fee : ℚ
  realized_pnl : ℚ
  time : Option ℤ
  deriving DecidableEq, Repr

/-- Reconstruction state: the open-lot table (insertion ordered) and
the list of emitted positions. -/
structure FState : Type where
  lots : List (String × Lot)
  out : List Position
  deriving DecidableEq, Repr

/-- Fresh lot for an opening fill on an absent key
(main.py lines 86-101 / 113-128). -/
def newFLot (pair dir : String) (t : ℤ) (r : FRow) (fee : ℚ) : Lot :=
  { id := .openLot pair dir t r.dealPrice r.quantity
    symbol := pair
    pair := pair
    direction := dir
    entry_time := t
    entry_price := r.dealPrice
    quantity := r.quantity
    entry_fee := fee
    leverage := intTrunc r.leverage
    total_quantity := r.quantity }

/-- Averaging an opening fill into an existing lot
(main.py lines 102-109 / 129-136).  The caller has checked that the new
total quantity is nonzero (a zero total raises in Python). -/
def avgFLot (lot : Lot) (dp q fee : ℚ) : Lot :=
  let total := lot.total_quantity + q
  { lot with
      entry_price := (lot.entry_price * lot.total_quantity + dp * q) / total
      total_quantity := total
      quantity := total
      entry_fee := lot.entry_fee + fee }

/-- PnL and ROI of a closing fill (main.py lines 148-158 / 198-207).
none models the ZeroDivisionError raised when the venue PnL is zero and
the lot's average entry price is zero; the notional division in the
venue-PnL branch is guarded by the code itself. -/
def closeCalc (ep q lev realized dp fee : ℚ) (isLong : Bool) : Option (ℚ × ℚ) :=
  if realized ≠ 0 then
    let pv := ep * q * lev
    some (realized, if 0 < pv then realized / pv * 100 else 0)
  else if ep = 0 then none
  else
    let pnl_pct := (if isLong then (dp - ep) / ep else (ep - dp) / ep) * 100
    let pv := ep * q * lev
    some (pv * (pnl_pct / 100) - fee, pnl_pct)

/-- The CLOSED position dict built and appended on a matched closing
fill (main.py lines 160-179 / 209-228): the lot's fields spread and
overridden. -/
def mkClosedPosF (pair dir : String) (lot : Lot) (r : FRow) (t : ℤ)
    (ratio net roi fee : ℚ) : Position :=
  { id := .closedPos pair dir lot.entry_time t r.quantity r.dealPrice
    symbol := lot.symbol
    pair := lot.pair
    direction := lot.direction
    entry_time := lot.entry_time
    entry_price := lot.entry_price
    quantity := r.quantity
    entry_fee := lot.entry_fee
    leverage := lot.leverage
    total_quantity := some lot.total_quantity
    exit_time := some t
    exit_price := r.dealPrice
    closed_at := t
    exit_fee := some fee
    fees := lot.entry_fee * ratio + fee
    duration_seconds := t - lot.entry_time
    net_pnl := round2 net
    roi_percent := round2 roi
    status := "CLOSED" }

/-- Lot update on a partial close (main.py lines 184-186 / 233-235):
total_quantity is reduced by the fill quantity and the entry fee is
scaled by (1 - close_ratio); the quantity field is not touched. -/
def shrinkFLot (lot : Lot) (ratio q : ℚ) : Lot :=
  { lot with
      total_quantity := lot.total_quantity - q
      entry_fee := lot.entry_fee * (1 - ratio) }

/-- End-of-sequence flush of a remaining lot as an OPEN position
(main.py lines 237-246). -/
def flushPosF (lot : Lot) : Position :=
  { id := lot.id
    symbol := lot.symbol
    pair := lot.pair
    direction := lot.direction
    entry_time := lot.entry_time
    entry_price := lot.entry_price
    quantity := lot.quantity
    entry_fee := lot.entry_fee
    leverage := lot.leverage
    total_quantity := some lot.total_quantity
    exit_time := none
    exit_price := lot.entry_price
    closed_at := lot.entry_time
    exit_fee := none
    fees := lot.entry_fee
    duration_seconds := 0
    net_pnl := 0
    roi_percent := 0
    status := "OPEN" }

/-- Opening-fill transition (main.py lines 84-109 and 111-136). -/
def openStepF (st : FState) (pair dir : String) (t : ℤ) (r : FRow) (fee : ℚ) :
    Option FState :=
  let key := pair ++ "_" ++ dir
  match lookupA key st.lots with
  | none => some { st with lots := st.lots ++ [(key, newFLot pair dir t r fee)] }
  | some lot =>
      if lot.total_quantity + r.quantity = 0 then none
      else some { st with lots := setA key (avgFLot lot r.dealPrice r.quantity fee) st.lots }

/-- Closing-fill transition (main.py lines 138-186 and 188-235). -/
def closeStepF (st : FState) (pair dir : String) (isLong : Bool) (t : ℤ)
    (r : FRow) (fee : ℚ) : Option FState :=
  let key := pair ++ "_" ++ dir
  match lookupA key st.lots with
  | none => some st
  | some lot =>
      if lot.total_quantity = 0 then none
      else
        let ratio := r.quantity / lot.total_quantity
        match closeCalc lot.entry_price r.quantity r.leverage r.realized_pnl
            r.dealPrice fee isLong with
        | none => none
        | some nr =>
            let p := mkClosedPosF pair dir lot r t ratio nr.1 nr.2 fee
            if 99/100 ≤ ratio then
              some { lots := removeA key st.lots, out := st.out ++ [p] }
            else
              some { lots := setA key (shrinkFLot lot ratio r.quantity) st.lots
                     out := st.out ++ [p] }

/-- One iteration of the futures row loop (main.py lines 60-235):
NaT rows and zero-quantity rows are skipped, the event verb is found by
substring containment, and fees are taken in absolute value. -/
def stepF (st : FState) (r : FRow) : Option FState :=
  match r.time with
  | none => some st
  | some t =>
      if r.quantity = 0 then some st
      else
        let pair := stripDash r.pair
        let fee := |r.fee|
        if containsSub "Open Long" r.ttype then openStepF st pair "LONG" t r fee
        else if containsSub "Open Short" r.ttype then openStepF st pair "SHORT" t r fee
        else if containsSub "Close Long" r.ttype then closeStepF st pair "LONG" true t r fee
        else if containsSub "Close Short" r.ttype then closeStepF st pair "SHORT" false t r fee
        else some st

/-- Row order used by the sort: ascending timestamp, NaT sorted last
(pandas sort_values). -/
def rleF (a b : FRow) : Bool :=
  match a.time, b.time with
  | some x, some y => decide (x ≤ y)
  | none, some _ => false
  | _, _ => true

/-- Stable ascending sort of the futures rows by timestamp
(main.py line 55). -/
def sortF (rows : List FRow) : List FRow :=
  List.insertionSort (fun a b => rleF a b = true) rows

/-- parse_bingx_futures (main.py lines 48-248): sort, fold the row
transition from an empty open-lot table, then flush the remaining lots
as OPEN positions.  none models an uncaught ZeroDivisionError. -/
def parse_bingx_futures (rows : List FRow) : Option (List Position) :=
  (List.foldlM stepF ⟨[], []⟩ (sortF rows)).map
    (fun st => st.out ++ st.lots.map (fun kv => flushPosF kv.2))

/-- A simple-dialect input row (Time, Symbol, Side, Price, Quantity,
Fee), numeric coercions applied upstream; qty is none for a NaN
quantity (pd.isna check at main.py line 270). -/
structure SRow : Type where
  symbol : String
  side : String
  qty : Option ℚ
  price : ℚ
  fee : ℚ
  time : ℤ
  deriving DecidableEq, Repr

/-- An open lot in the simple-dialect open_positions table
(main.py lines 280-290): no total_quantity, leverage fixed at 1. -/
structure SLot : Type where
  id : PosId
  symbol : String
  pair : String
  direction : String
  entry_time : ℤ
  entry_price : ℚ
  quantity : ℚ
  entry_fee : ℚ
  leverage : ℤ
  deriving DecidableEq, Repr

/-- Simple-dialect reconstruction state. -/
structure SState : Type where
  lots : List (String × SLot)
  out : List Position
  deriving DecidableEq, Repr

/-- Fresh lot for a BUY/LONG row on an absent key (main.py 276-290). -/
def newSLot (r : SRow) (q : ℚ) : SLot :=
  { id := .openLot r.symbol "LONG" r.time r.price q
    symbol := r.symbol
    pair := r.symbol
    direction := "LONG"
    entry_time := r.time
    entry_price := r.price
    quantity := q
    entry_fee := r.fee
    leverage := 1 }

/-- The CLOSED position dict built on a SELL/SHORT row with a matching
lot (main.py lines 293-319): the lot's fields (identity included)
spread and overridden; fixed 10000 notional. -/
def mkClosedPosS (lot : SLot) (r : SRow) (pnl_pct : ℚ) : Position :=
  { id := lot.id
    symbol := lot.symbol
    pair := lot.pair
    direction := lot.direction
    entry_time := lot.entry_time
    entry_price := lot.entry_price
    quantity := lot.quantity
    entry_fee := lot.entry_fee
    leverage := lot.leverage
    total_quantity := none
    exit_time := some r.time
    exit_price := r.price
    closed_at := r.time
    exit_fee := some r.fee
    fees := lot.entry_fee + r.fee
    duration_seconds := r.time - lot.entry_time
    net_pnl := round2 (10000 * (pnl_pct / 100) - lot.entry_fee - r.fee)
    roi_percent := round2 pnl_pct
    status := "CLOSED" }

/-- End-of-sequence flush of a remaining simple-dialect lot as an OPEN
position (main.py lines 322-331). -/
def flushPosS (lot : SLot) : Position :=
  { id := lot.id
    symbol := lot.symbol
    pair := lot.pair
    direction := lot.direction
    entry_time := lot.entry_time
    entry_price := lot.entry_price
    quantity := lot.quantity
    entry_fee := lot.entry_fee
    leverage := lot.leverage
    total_quantity := none
    exit_time := none
    exit_price := lot.entry_price
    closed_at := lot.entry_time
    exit_fee := none
    fees := lot.entry_fee
    duration_seconds := 0
    net_pnl := 0
    roi_percent := 0
    status := "OPEN" }

/-- One iteration of the simple row loop (main.py lines 262-320):
NaN / zero quantities are skipped; a BUY/LONG on a present key is
silently ignored; a SELL/SHORT on an absent key is silently dropped;
a SELL/SHORT on a present key closes the whole lot and removes the key.
none models the ZeroDivisionError raised when the lot's entry price is
zero. -/
def stepS (st : SState) (r : SRow) : Option SState :=
  match r.qty with
  | none => some st
  | some q =>
      if q = 0 then some st
      else
        let side := upperStr r.side
        if side = "BUY" ∨ side = "LONG" then
          match lookupA r.symbol st.lots with
          | some _ => some st
          | none => some { st with lots := st.lots ++ [(r.symbol, newSLot r q)] }
        else if side = "SELL" ∨ side = "SHORT" then
          match lookupA r.symbol st.lots with
          | none => some st
          | some lot =>
              if lot.entry_price = 0 then none
              else
                let pnl_pct :=
                  (if lot.direction = "LONG" then (r.price - lot.entry_price) / lot.entry_price
                   else (lot.entry_price - r.price) / lot.entry_price) * 100
                some { lots := removeA r.symbol st.lots
                       out := st.out ++ [mkClosedPosS lot r pnl_pct] }
        else some st

/-- Stable ascending sort of the simple rows by timestamp
(main.py line 257). -/
def sortS (rows : List SRow) : List SRow :=
  List.insertionSort (fun a b => a.time ≤ b.time) rows

/-- parse_simple_csv (main.py lines 251-333). -/
def parse_simple_csv (rows : List SRow) : Option (List Position) :=
  (List.foldlM stepS ⟨[], []⟩ (sortS rows)).map
    (fun st => st.out ++ st.lots.map (fun kv => flushPosS kv.2))

/-- Summary statistics record returned by calculate_stats. -/
structure Stats : Type where
  total_positions : ℕ
  total_trades : ℕ
  net_pnl : ℚ
  total_pnl : ℚ
  total_fees : ℚ
  total_volume : ℕ
  win_rate : ℚ
  winning_trades : ℕ
  losing_trades : ℕ
  avg_win : ℚ
  avg_loss : ℚ
  deriving DecidableEq, Repr

/-- calculate_stats (main.py lines 336-379). -/
def calculate_stats (positions : List Position) : Stats :=
  if positions = [] then
    { total_positions := 0, total_trades := 0, net_pnl := 0, total_pnl := 0
      total_fees := 0, total_volume := 0, win_rate := 0, winning_trades := 0
      losing_trades := 0, avg_win := 0, avg_loss := 0 }
  else
    let closed := positions.filter (fun p => p.status = "CLOSED")
    let total_pnl := (closed.map Position.net_pnl).sum
    let total_fees := (positions.map Position.fees).sum
    let winning := closed.filter (fun p => 0 < p.net_pnl)
    let losing := closed.filter (fun p => p.net_pnl < 0)
    let avg_win := if winning = [] then 0 else (winning.map Position.net_pnl).sum / winning.length
    let avg_loss := if losing = [] then 0 else (losing.map Position.net_pnl).sum / losing.length
    { total_positions := positions.length
      total_trades := closed.length
      net_pnl := round2 total_pnl
      total_pnl := round2 (total_pnl + total_fees)
      total_fees := round2 total_fees
      total_volume := closed.length * 10000
      win_rate := round2 (if closed = [] then 0 else (winning.length : ℚ) / closed.length * 100)
      winning_trades := winning.length
      losing_trades := losing.length
      avg_win := round2 avg_win
      avg_loss := round2 avg_loss }

/-- Entry-fee bookkeeping of a chain of partial closes of one futures
lot, projected from main.py lines 172 (allocated share
entry_fee * close_ratio) and 185-186 (remaining entry fee scaled by
1 - close_ratio): the state is (total allocated so far, fee remaining
on the lot), folded over the list of close ratios. -/
def feeState (F : ℚ) (rs : List ℚ) : ℚ × ℚ :=
  rs.foldl (fun s r => (s.1 + s.2 * r, s.2 * (1 - r))) (0, F)

/-- Invariant shape for a futures reconstruction state: a property of
every emitted position and a property of every stored lot. -/
def FInvP (Pp : Position → Prop) (Pl : Lot → Prop) (st : FState) : Prop :=
  (∀ p ∈ st.out, Pp p) ∧ (∀ kv ∈ st.lots, Pl kv.2)

/-- Invariant shape for a simple-dialect reconstruction state. -/
def SInvP (Pp : Position → Prop) (Pl : SLot → Prop) (st : SState) : Prop :=
  (∀ p ∈ st.out, Pp p) ∧ (∀ kv ∈ st.lots, Pl kv.2)

/-- The two futures rows of the worked example in the specification:
Open Long BTCUSDT qty=1 price=100 fee=1, then
Close Long BTCUSDT qty=1 price=110 fee=1, no venue PnL, leverage 1. -/
def c2open : FRow :=
  { pair := "BTCUSDT", ttype := "Open Long", leverage := 1, dealPrice := 100
    quantity := 1, fee := 1, realized_pnl := 0, time := some 0 }

def c2close : FRow :=
  { pair := "BTCUSDT", ttype := "Close Long", leverage := 1, dealPrice := 110
    quantity := 1, fee := 1, realized_pnl := 0, time := some 1 }

/-- The single CLOSED position that reconstruction of the worked
example produces. -/
def c2pos : Position :=
  { id := .closedPos "BTCUSDT" "LONG" 0 1 1 110
    symbol := "BTCUSDT", pair := "BTCUSDT", direction := "LONG"
    entry_time := 0, entry_price := 100, quantity := 1, entry_fee := 1
    leverage := 1, total_quantity := some 1, exit_time := some 1
    exit_price := 110, closed_at := 1, exit_fee := some 1, fees := 2
    duration_seconds := 1, net_pnl := 9, roi_percent := 10, status := "CLOSED" }

/-- The invariant of claim C3 on an emitted position: CLOSED records
carry an exit timestamp, and OPEN records mirror the entry values with
zeroed PnL / ROI / duration. -/
def StatusInv (p : Position) : Prop :=
  (p.status = "CLOSED" → p.exit_time.isSome = true) ∧
  (p.status = "OPEN" → p.exit_price = p.entry_price ∧ p.closed_at = p.entry_time ∧
    p.net_pnl = 0 ∧ p.roi_percent = 0 ∧ p.duration_seconds = 0)

/-- Concrete single-row futures input used to witness C3. -/
def w3row : FRow :=
  { pair := "ETHUSDT", ttype := "Open Long", leverage := 1, dealPrice := 5
    quantity := 2, fee := 0, realized_pnl := 0, time := some 0 }

/-- Concrete single-row simple input used to witness C9. -/
def w9row : SRow :=
  { symbol := "AAAUSDT", side := "BUY", qty := some 1, price := 4, fee := 0, time := 0 }

/-- Identity projection of a reconstruction result. -/
def idsOf (o : Option (List Position)) : Option (List PosId) :=
  o.map (List.map Position.id)

/-- Content shape of a futures-dialect identity: a CLOSED position's
identity is the content hash of (pair, direction, lot entry time, close
time, fill quantity, fill price), and an OPEN position keeps the
identity minted when its lot was created (whose entry time it still
carries). -/
def IdContentF (p : Position) : Prop :=
  (p.status = "CLOSED" → ∃ pr dir t, p.exit_time = some t ∧
    p.id = PosId.closedPos pr dir p.entry_time t p.quantity p.exit_price) ∧
  (p.status = "OPEN" → ∃ pr dir p0 q0, p.id = PosId.openLot pr dir p.entry_time p0 q0)

/-- Content shape of a simple-dialect identity: every emitted position
(closed positions reuse the lot's identity) carries the content hash of
(symbol, LONG, entry time, entry price, quantity). -/
def IdContentS (p : Position) : Prop :=
  ∃ pr dir, p.id = PosId.openLot pr dir p.entry_time p.entry_price p.quantity

/-- First averaging-example row: Open Long qty=2 price=100. -/
def c5open1 : FRow :=
  { pair := "BTCUSDT", ttype := "Open Long", leverage := 1, dealPrice := 100
    quantity := 2, fee := 0, realized_pnl := 0, time := some 0 }

/-- Second averaging-example row: Open Long qty=2 price=110. -/
def c5open2 : FRow :=
  { pair := "BTCUSDT", ttype := "Open Long", leverage := 1, dealPrice := 110
    quantity := 2, fee := 0, realized_pnl := 0, time := some 1 }

/-- Short-side opening row used to build the C5 witness lot. -/
def w5sopen : FRow :=
  { pair := "BTCUSDT", ttype := "Open Short", leverage := 1, dealPrice := 100
    quantity := 2, fee := 0, realized_pnl := 0, time := some 0 }

/-- Short-side averaging row used by the C5 witness. -/
def w5srow : FRow :=
  { pair := "BTCUSDT", ttype := "Open Short", leverage := 1, dealPrice := 110
    quantity := 2, fee := 0, realized_pnl := 0, time := some 1 }

/-- Lot sitting in the witness state for C5. -/
def w5slot : Lot := newFLot "BTCUSDT" "SHORT" 0 w5sopen 0

/-- Witness state for C5: an open-lot table already containing the
BTCUSDT short lot. -/
def w5sst : FState := { lots := [("BTCUSDT_SHORT", w5slot)], out := [] }

/-- BUY leg of the simple-dialect worked example. -/
def c7buy : SRow :=
  { symbol := "AAAUSDT", side := "BUY", qty := some 1, price := 100, fee := 0, time := 0 }

/-- SELL leg of the simple-dialect worked example: a 5% favorable move,
zero fees. -/
def c7sell : SRow :=
  { symbol := "AAAUSDT", side := "SELL", qty := some 1, price := 105, fee := 0, time := 1 }

/-- Witness lot for C7. -/
def w7lot : SLot := newSLot c7buy 1

/-- Witness state for C7: an open-lot table containing the lot. -/
def w7st : SState := { lots := [("AAAUSDT", w7lot)], out := [] }

/-- Futures row used by the C10 concrete run: Open Long qty=4
price=100. -/
def c10open : FRow :=
  { pair := "BTCUSDT", ttype := "Open Long", leverage := 1, dealPrice := 100
    quantity := 4, fee := 0, realized_pnl := 0, time := some 0 }

/-- Futures row used by the C10 concrete run: Close Long qty=1
price=100 — a partial close with close_ratio = 1/4. -/
def c10close : FRow :=
  { pair := "BTCUSDT", ttype := "Close Long", leverage := 1, dealPrice := 100
    quantity := 1, fee := 0, realized_pnl := 0, time := some 1 }

/-- Short-side opening row used to build the C10 witness lot. -/
def w10sopen : FRow :=
  { pair := "BTCUSDT", ttype := "Open Short", leverage := 1, dealPrice := 100
    quantity := 4, fee := 0, realized_pnl := 0, time := some 0 }

/-- Short-side close row used by the C10 witness: Close Short qty=1
against a short lot of quantity 4 — a partial close with
close_ratio = 1/4. -/
def w10srow : FRow :=
  { pair := "BTCUSDT", ttype := "Close Short", leverage := 1, dealPrice := 100
    quantity := 1, fee := 0, realized_pnl := 0, time := some 1 }

/-- Witness lot for C10: the open short BTCUSDT lot with quantity 4. -/
def w10slot : Lot := newFLot "BTCUSDT" "SHORT" 0 w10sopen 0

/-- Witness state for C10. -/
def w10sst : FState := { lots := [("BTCUSDT_SHORT", w10slot)], out := [] }

/-- Futures row opening a lot whose average entry price is 0. -/
def c1open : FRow :=
  { pair := "XUSDT", ttype := "Open Long", leverage := 1, dealPrice := 0
    quantity := 1, fee := 0, realized_pnl := 0, time := some 0 }

/-- Futures row closing that lot with zero venue-reported realized
PnL. -/
def c1close : FRow :=
  { pair := "XUSDT", ttype := "Close Long", leverage := 1, dealPrice := 10
    quantity := 1, fee := 0, realized_pnl := 0, time := some 1 }

/-! Theorems. -/

theorem lookupA_mem {α : Type} {k : String} {l : List (String × α)} {v : α}
    (h : lookupA k l = some v) : (k, v) ∈ l := by
  induction l with
  | nil => simp [lookupA] at h
  | cons kv t ih =>
      obtain ⟨k', v'⟩ := kv
      by_cases hk : k' = k
      · subst hk
        simp [lookupA] at h
        subst h
        exact List.mem_cons_self _ _
      · simp [lookupA, hk] at h
        exact List.mem_cons_of_mem _ (ih h)

theorem mem_setA {α : Type} {k : String} {v : α} {l : List (String × α)} {kv : String × α}
    (h : kv ∈ setA k v l) : kv ∈ l ∨ kv = (k, v) := by
  induction l with
  | nil => simp [setA] at h
  | cons kv' t ih =>
      obtain ⟨k', v'⟩ := kv'
      by_cases hk : k' = k
      · subst hk
        simp only [setA, if_pos rfl] at h
        rcases List.mem_cons.mp h with h1 | h1
        · exact Or.inr (by simpa using h1)
        · exact Or.inl (List.mem_cons_of_mem _ h1)
      · simp only [setA, if_neg hk] at h
        rcases List.mem_cons.mp h with h1 | h1
        · exact Or.inl (h1 ▸ List.mem_cons_self _ _)
        · rcases ih h1 with h2 | h2
          · exact Or.inl (List.mem_cons_of_mem _ h2)
          · exact Or.inr h2

theorem lookupA_setA_self {α : Type} {k : String} {v w : α} {l : List (String × α)}
    (h : lookupA k l = some w) : lookupA k (setA k v l) = some v := by
  induction l with
  | nil => simp [lookupA] at h
  | cons kv t ih =>
      obtain ⟨k', v'⟩ := kv
      by_cases hk : k' = k
      · subst hk
        simp [setA, lookupA]
      · simp only [lookupA, if_neg hk] at h
        simp only [setA, if_neg hk, lookupA, if_neg hk]
        exact ih h

theorem lookupA_removeA {α : Type} (k : String) (l : List (String × α)) :
    lookupA k (removeA k l) = none := by
  induction l with
  | nil => rfl
  | cons kv t ih =>
      obtain ⟨k', v'⟩ := kv
      by_cases hk : k' = k
      · subst hk
        simpa [removeA] using ih
      · simpa [removeA, lookupA, hk] using ih

theorem mem_removeA {α : Type} {k : String} {l : List (String × α)} {kv : String × α}
    (h : kv ∈ removeA k l) : kv ∈ l :=
  List.mem_of_mem_filter h

theorem foldlM_some_inv {σ α : Type} (f : σ → α → Option σ) (P : σ → Prop)
    (hstep : ∀ s a s', P s → f s a = some s' → P s') :
    ∀ (l : List α) (s s' : σ), List.foldlM f s l = some s' → P s → P s' := by
  intro l
  induction l with
  | nil =>
      intro s s' h hp
      simp only [List.foldlM_nil] at h
      cases h
      exact hp
  | cons a t ih =>
      intro s s' h hp
      simp only [List.foldlM_cons] at h
      cases hfa : f s a with
      | none => rw [hfa] at h; simp at h
      | some s1 =>
          rw [hfa] at h
          exact ih s1 s' h (hstep s a s1 hp hfa)

theorem openStepF_pres {Pp : Position → Prop} {Pl : Lot → Prop}
    (hnew : ∀ pair dir t r fee, Pl (newFLot pair dir t r fee))
    (havg : ∀ l dp q fee, Pl l → Pl (avgFLot l dp q fee))
    {st st' : FState} {pair dir : String} {t : ℤ} {r : FRow} {fee : ℚ}
    (h : openStepF st pair dir t r fee = some st')
    (hinv : FInvP Pp Pl st) : FInvP Pp Pl st' := by
  obtain ⟨hout, hlots⟩ := hinv
  simp only [openStepF] at h
  split at h
  next hlk =>
    cases h
    refine ⟨hout, ?_⟩
    intro kv hkv
    rcases List.mem_append.mp hkv with h1 | h1
    · exact hlots kv h1
    · simp at h1
      rw [h1]
      exact hnew pair dir t r fee
  next lot hlk =>
    split at h
    next h0 => simp at h
    next h0 =>
      cases h
      refine ⟨hout, ?_⟩
      intro kv hkv
      rcases mem_setA hkv with h1 | h1
      · exact hlots kv h1
      · rw [h1]
        exact havg lot r.dealPrice r.quantity fee (hlots _ (lookupA_mem hlk))

theorem closeStepF_pres {Pp : Position → Prop} {Pl : Lot → Prop}
    (hshr : ∀ l ratio q, Pl l → Pl (shrinkFLot l ratio q))
    (hcl : ∀ pair dir lot r t ratio net roi fee,
      Pl lot → Pp (mkClosedPosF pair dir lot r t ratio net roi fee))
    {st st' : FState} {pair dir : String} {isLong : Bool} {t : ℤ} {r : FRow} {fee : ℚ}
    (h : closeStepF st pair dir isLong t r fee = some st')
    (hinv : FInvP Pp Pl st) : FInvP Pp Pl st' := by
  obtain ⟨hout, hlots⟩ := hinv
  simp only [closeStepF] at h
  split at h
  next hlk =>
    cases h
    exact ⟨hout, hlots⟩
  next lot hlk =>
    have hPl : Pl lot := hlots _ (lookupA_mem hlk)
    split at h
    next h0 => simp at h
    next h0 =>
      split at h
      next hcc => simp at h
      next nr hcc =>
        split at h
        next hr =>
          cases h
          constructor
          · intro p hp
            rcases List.mem_append.mp hp with h1 | h1
            · exact hout p h1
            · simp at h1
              rw [h1]
              exact hcl _ _ _ _ _ _ _ _ _ hPl
          · intro kv hkv
            exact hlots kv (mem_removeA hkv)
        next hr =>
          cases h
          constructor
          · intro p hp
            rcases List.mem_append.mp hp with h1 | h1
            · exact hout p h1
            · simp at h1
              rw [h1]
              exact hcl _ _ _ _ _ _ _ _ _ hPl
          · intro kv hkv
            rcases mem_setA hkv with h1 | h1
            · exact hlots kv h1
            · rw [h1]
              exact hshr lot _ r.quantity hPl

theorem stepF_pres {Pp : Position → Prop} {Pl : Lot → Prop}
    (hnew : ∀ pair dir t r fee, Pl (newFLot pair dir t r fee))
    (havg : ∀ l dp q fee, Pl l → Pl (avgFLot l dp q fee))
    (hshr : ∀ l ratio q, Pl l → Pl (shrinkFLot l ratio q))
    (hcl : ∀ pair dir lot r t ratio net roi fee,
      Pl lot → Pp (mkClosedPosF pair dir lot r t ratio net roi fee)) :
    ∀ (st : FState) (r : FRow) (st' : FState),
      FInvP Pp Pl st → stepF st r = some st' → FInvP Pp Pl st' := by
  intro st r st' hinv h
  simp only [stepF] at h
  split at h
  next =>
    cases h
    exact hinv
  next t htime =>
    split at h
    next hq =>
      cases h
      exact hinv
    next hq =>
      split at h
      next h1 => exact openStepF_pres hnew havg h hinv
      next h1 =>
        split at h
        next h2 => exact openStepF_pres hnew havg h hinv
        next h2 =>
          split at h
          next h3 => exact closeStepF_pres hshr hcl h hinv
          next h3 =>
            split at h
            next h4 => exact closeStepF_pres hshr hcl h hinv
            next h4 =>
              cases h
              exact hinv

/-- Every position emitted by a full futures reconstruction satisfies
Pp, provided Pp holds of every close emission and every flushed lot,
and the lot property Pl is preserved by lot creation, averaging and
partial-close shrinking. -/
theorem parseF_sound {Pp : Position → Prop} {Pl : Lot → Prop}
    (hnew : ∀ pair dir t r fee, Pl (newFLot pair dir t r fee))
    (havg : ∀ l dp q fee, Pl l → Pl (avgFLot l dp q fee))
    (hshr : ∀ l ratio q, Pl l → Pl (shrinkFLot l ratio q))
    (hcl : ∀ pair dir lot r t ratio net roi fee,
      Pl lot → Pp (mkClosedPosF pair dir lot r t ratio net roi fee))
    (hfl : ∀ l, Pl l → Pp (flushPosF l)) :
    ∀ rows ps, parse_bingx_futures rows = some ps → ∀ p ∈ ps, Pp p := by
  intro rows ps h p hp
  simp only [parse_bingx_futures] at h
  cases hfold : List.foldlM stepF ⟨[], []⟩ (sortF rows) with
  | none => rw [hfold] at h; simp at h
  | some st =>
      rw [hfold] at h
      simp only [Option.map_some'] at h
      have hinv : FInvP Pp Pl st := by
        refine foldlM_some_inv stepF (FInvP Pp Pl) ?_ (sortF rows) ⟨[], []⟩ st hfold ?_
        · intro s a s' hps hfa
          exact stepF_pres hnew havg hshr hcl s a s' hps hfa
        · exact ⟨by simp, by simp⟩
      cases h
      rcases List.mem_append.mp hp with h1 | h1
      · exact hinv.1 p h1
      · rcases List.mem_map.mp h1 with ⟨kv, hkv, hpkv⟩
        rw [← hpkv]
        exact hfl kv.2 (hinv.2 kv hkv)

theorem stepS_pres {Pp : Position → Prop} {Pl : SLot → Prop}
    (hnew : ∀ r q, Pl (newSLot r q))
    (hcl : ∀ lot r pct, Pl lot → Pp (mkClosedPosS lot r pct)) :
    ∀ (st : SState) (r : SRow) (st' : SState),
      SInvP Pp Pl st → stepS st r = some st' → SInvP Pp Pl st' := by
  intro st r st' hinv h
  obtain ⟨hout, hlots⟩ := hinv
  simp only [stepS] at h
  split at h
  next =>
    cases h
    exact ⟨hout, hlots⟩
  next q hq =>
    split at h
    next h0 =>
      cases h
      exact ⟨hout, hlots⟩
    next h0 =>
      split at h
      next hbuy =>
        split at h
        next lot hlk =>
          cases h
          exact ⟨hout, hlots⟩
        next hlk =>
          cases h
          refine ⟨hout, ?_⟩
          intro kv hkv
          rcases List.mem_append.mp hkv with h1 | h1
          · exact hlots kv h1
          · simp at h1
            rw [h1]
            exact hnew r q
      next hbuy =>
        split at h
        next hsell =>
          split at h
          next hlk =>
            cases h
            exact ⟨hout, hlots⟩
          next lot hlk =>
            split at h
            next hep => simp at h
            next hep =>
              cases h
              constructor
              · intro p hp
                rcases List.mem_append.mp hp with h1 | h1
                · exact hout p h1
                · simp at h1
                  rw [h1]
                  exact hcl lot r _ (hlots _ (lookupA_mem hlk))
              · intro kv hkv
                exact hlots kv (mem_removeA hkv)
        next hsell =>
          cases h
          exact ⟨hout, hlots⟩

/-- Every position emitted by a full simple-dialect reconstruction
satisfies Pp, provided Pp holds of every close emission and every
flushed lot, and Pl holds of every freshly opened lot. -/
theorem parseS_sound {Pp : Position → Prop} {Pl : SLot → Prop}
    (hnew : ∀ r q, Pl (newSLot r q))
    (hcl : ∀ lot r pct, Pl lot → Pp (mkClosedPosS lot r pct))
    (hfl : ∀ l, Pl l → Pp (flushPosS l)) :
    ∀ rows ps, parse_simple_csv rows = some ps → ∀ p ∈ ps, Pp p := by
  intro rows ps h p hp
  simp only [parse_simple_csv] at h
  cases hfold : List.foldlM stepS ⟨[], []⟩ (sortS rows) with
  | none => rw [hfold] at h; simp at h
  | some st =>
      rw [hfold] at h
      simp only [Option.map_some'] at h
      have hinv : SInvP Pp Pl st := by
        refine foldlM_some_inv stepS (SInvP Pp Pl) ?_ (sortS rows) ⟨[], []⟩ st hfold ?_
        · intro s a s' hps hfa
          exact stepS_pres hnew hcl s a s' hps hfa
        · exact ⟨by simp, by simp⟩
      cases h
      rcases List.mem_append.mp hp with h1 | h1
      · exact hinv.1 p h1
      · rcases List.mem_map.mp h1 with ⟨kv, hkv, hpkv⟩
        rw [← hpkv]
        exact hfl kv.2 (hinv.2 kv hkv)

/-- C2: the futures input Open Long BTCUSDT qty=1 price=100 fee=1
followed by Close Long BTCUSDT qty=1 price=110 fee=1, with zero
venue-reported realized PnL and leverage 1, reconstructs to exactly one
position, which is CLOSED with net_pnl = 9.0, roi_percent = 10.0 and
fees = 2.0. -/
theorem futures_two_row_example :
    parse_bingx_futures [c2open, c2close] = some [c2pos] ∧
    c2pos.status = "CLOSED" ∧ c2pos.net_pnl = 9 ∧ c2pos.roi_percent = 10 ∧
    c2pos.fees = 2 := by
  refine ⟨?_, rfl, rfl, rfl, rfl⟩
  norm_num +decide [parse_bingx_futures, sortF, rleF, stepF, openStepF, closeStepF,
    closeCalc, mkClosedPosF, newFLot, avgFLot, shrinkFLot, flushPosF,
    lookupA, setA, removeA, stripDash, containsSub, containsL, startsL,
    intTrunc, round2, c2open, c2close, c2pos,
    List.insertionSort, List.orderedInsert, List.foldlM,
    Position.mk.injEq, Lot.mk.injEq]

/-- C3: for every input row sequence, in either dialect, every emitted
position satisfies: CLOSED implies the exit fields are populated, and
OPEN implies exit_price = entry_price, closed_at = entry_time,
net_pnl = 0, roi_percent = 0 and duration_seconds = 0. -/
theorem emitted_status_invariant :
    (∀ rows ps, parse_bingx_futures rows = some ps → ∀ p ∈ ps, StatusInv p) ∧
    (∀ rows ps, parse_simple_csv rows = some ps → ∀ p ∈ ps, StatusInv p) := by
  constructor
  · refine @parseF_sound StatusInv (fun _ => True) ?_ ?_ ?_ ?_ ?_
    · intro _ _ _ _ _; trivial
    · intro _ _ _ _ _; trivial
    · intro _ _ _ _; trivial
    · intro pair dir lot r t ratio net roi fee _
      refine ⟨fun _ => rfl, fun hop => ?_⟩
      simp [mkClosedPosF] at hop
    · intro l _
      refine ⟨fun hcl => ?_, fun _ => ⟨rfl, rfl, rfl, rfl, rfl⟩⟩
      simp [flushPosF] at hcl
  · refine @parseS_sound StatusInv (fun _ => True) ?_ ?_ ?_
    · intro _ _; trivial
    · intro lot r pct _
      refine ⟨fun _ => rfl, fun hop => ?_⟩
      simp [mkClosedPosS] at hop
    · intro l _
      refine ⟨fun hcl => ?_, fun _ => ⟨rfl, rfl, rfl, rfl, rfl⟩⟩
      simp [flushPosS] at hcl

/-- Witness for C3: the invariant instantiated on the OPEN position
flushed from a one-row futures input. -/
theorem emitted_status_invariant_witness :
    StatusInv (flushPosF (newFLot "ETHUSDT" "LONG" 0 w3row 0)) := by
  refine emitted_status_invariant.1 [w3row]
    [flushPosF (newFLot "ETHUSDT" "LONG" 0 w3row 0)] ?_ _ (by simp)
  norm_num +decide [parse_bingx_futures, sortF, rleF, stepF, openStepF,
    lookupA, stripDash, containsSub, containsL, startsL, w3row,
    List.insertionSort, List.orderedInsert, List.foldlM]

/-- C9: every position emitted by the simple dialect has direction
LONG: sell-side rows never create a lot, so a SHORT position can never
be produced. -/
theorem simple_all_long :
    ∀ rows ps, parse_simple_csv rows = some ps → ∀ p ∈ ps, p.direction = "LONG" := by
  refine @parseS_sound (fun p => p.direction = "LONG")
    (fun l => l.direction = "LONG") ?_ ?_ ?_
  · intro r q; rfl
  · intro lot r pct h; exact h
  · intro l h; exact h

/-- Witness for C9: the LONG-only conclusion instantiated on the OPEN
position flushed from a one-row simple input. -/
theorem simple_all_long_witness :
    (flushPosS (newSLot w9row 1)).direction = "LONG" := by
  refine simple_all_long [w9row] [flushPosS (newSLot w9row 1)] ?_ _ (by simp)
  norm_num +decide [parse_simple_csv, sortS, stepS, lookupA, upperStr, w9row,
    newSLot, List.insertionSort, List.orderedInsert, List.foldlM]

/-- C4: the reconstructor's identity assignment is deterministic — two
runs on the same input rows produce identical id sequences — and each
id is derived purely from the content tuple fed to the hash (never a
random value or a run-dependent counter). -/
theorem deterministic_content_ids :
    (∀ frows srows, idsOf (parse_bingx_futures frows) = idsOf (parse_bingx_futures frows) ∧
      idsOf (parse_simple_csv srows) = idsOf (parse_simple_csv srows)) ∧
    (∀ rows ps, parse_bingx_futures rows = some ps → ∀ p ∈ ps, IdContentF p) ∧
    (∀ rows ps, parse_simple_csv rows = some ps → ∀ p ∈ ps, IdContentS p) := by
  refine ⟨fun _ _ => ⟨rfl, rfl⟩, ?_, ?_⟩
  · refine @parseF_sound IdContentF
      (fun l => ∃ pr dir p0 q0, l.id = PosId.openLot pr dir l.entry_time p0 q0)
      ?_ ?_ ?_ ?_ ?_
    · intro pair dir t r fee
      exact ⟨pair, dir, r.dealPrice, r.quantity, rfl⟩
    · intro l dp q fee h
      obtain ⟨pr, dir, p0, q0, hid⟩ := h
      exact ⟨pr, dir, p0, q0, hid⟩
    · intro l ratio q h
      obtain ⟨pr, dir, p0, q0, hid⟩ := h
      exact ⟨pr, dir, p0, q0, hid⟩
    · intro pair dir lot r t ratio net roi fee _
      constructor
      · intro _
        exact ⟨pair, dir, t, rfl, rfl⟩
      · intro hop
        simp [mkClosedPosF] at hop
    · intro l h
      obtain ⟨pr, dir, p0, q0, hid⟩ := h
      constructor
      · intro hcl
        simp [flushPosF] at hcl
      · intro _
        exact ⟨pr, dir, p0, q0, hid⟩
  · refine @parseS_sound IdContentS
      (fun l => ∃ pr dir, l.id = PosId.openLot pr dir l.entry_time l.entry_price l.quantity)
      ?_ ?_ ?_
    · intro r q
      exact ⟨r.symbol, "LONG", rfl⟩
    · intro lot r pct h
      obtain ⟨pr, dir, hid⟩ := h
      exact ⟨pr, dir, hid⟩
    · intro l h
      obtain ⟨pr, dir, hid⟩ := h
      exact ⟨pr, dir, hid⟩

/-- Witness for C4: the content-derived identity conclusion
instantiated on the OPEN position flushed from a one-row futures
input. -/
theorem deterministic_content_ids_witness :
    IdContentF (flushPosF (newFLot "ETHUSDT" "LONG" 0 w3row 0)) := by
  refine deterministic_content_ids.2.1 [w3row]
    [flushPosF (newFLot "ETHUSDT" "LONG" 0 w3row 0)] ?_ _ (by simp)
  norm_num +decide [parse_bingx_futures, sortF, rleF, stepF, openStepF,
    lookupA, stripDash, containsSub, containsL, startsL, w3row,
    List.insertionSort, List.orderedInsert, List.foldlM]

/-- C5: an opening fill (Open Long or Open Short) on a key already
present in the open-lot table replaces the lot's average entry price by
(avg_old * qty_old + fill_price * fill_qty) / (qty_old + fill_qty) and
its quantity by qty_old + fill_qty; in particular 2@100 then 2@110
averages to entry price 105 with quantity 4. -/
theorem open_averaging :
    (∀ (st : FState) (r : FRow) (t : ℤ) (lot : Lot) (dir : String),
      r.time = some t → r.quantity ≠ 0 →
      ((containsSub "Open Long" r.ttype = true ∧ dir = "LONG") ∨
        (containsSub "Open Long" r.ttype = false ∧
          containsSub "Open Short" r.ttype = true ∧ dir = "SHORT")) →
      lookupA (stripDash r.pair ++ "_" ++ dir) st.lots = some lot →
      lot.total_quantity + r.quantity ≠ 0 →
      ∃ st', stepF st r = some st' ∧
        lookupA (stripDash r.pair ++ "_" ++ dir) st'.lots =
          some (avgFLot lot r.dealPrice r.quantity |r.fee|) ∧
        (avgFLot lot r.dealPrice r.quantity |r.fee|).entry_price =
          (lot.entry_price * lot.total_quantity + r.dealPrice * r.quantity) /
            (lot.total_quantity + r.quantity) ∧
        (avgFLot lot r.dealPrice r.quantity |r.fee|).quantity =
          lot.total_quantity + r.quantity ∧
        (avgFLot lot r.dealPrice r.quantity |r.fee|).total_quantity =
          lot.total_quantity + r.quantity) ∧
    (∃ p, parse_bingx_futures [c5open1, c5open2] = some [p] ∧
      p.entry_price = 105 ∧ p.quantity = 4 ∧ p.status = "OPEN") := by
  constructor
  · intro st r t lot dir ht hq hbranch hlk hnz
    refine ⟨⟨setA (stripDash r.pair ++ "_" ++ dir)
        (avgFLot lot r.dealPrice r.quantity |r.fee|) st.lots, st.out⟩,
      ?_, lookupA_setA_self hlk, rfl, rfl, rfl⟩
    rcases hbranch with ⟨hol, hdir⟩ | ⟨hol, hos, hdir⟩
    · subst hdir
      simp only [stepF, ht]
      rw [if_neg hq, if_pos hol]
      simp only [openStepF, hlk]
      rw [if_neg hnz]
    · subst hdir
      simp only [stepF, ht]
      rw [if_neg hq, if_neg (by simp [hol] : ¬containsSub "Open Long" r.ttype = true),
        if_pos hos]
      simp only [openStepF, hlk]
      rw [if_neg hnz]
  · refine ⟨flushPosF (avgFLot (newFLot "BTCUSDT" "LONG" 0 c5open1 0) 110 2 0),
      ?_, by norm_num [flushPosF, avgFLot, newFLot, c5open1],
      by norm_num [flushPosF, avgFLot, newFLot, c5open1], rfl⟩
    norm_num +decide [parse_bingx_futures, sortF, rleF, stepF, openStepF,
      closeCalc, newFLot, avgFLot, flushPosF, lookupA, setA, stripDash,
      containsSub, containsL, startsL, intTrunc, c5open1, c5open2,
      List.insertionSort, List.orderedInsert, List.foldlM,
      Position.mk.injEq, Lot.mk.injEq]

/-- Witness for C5: the averaging conclusion instantiated at a concrete
state and row, exercising the Open Short branch. -/
theorem open_averaging_witness :
    ∃ st', stepF w5sst w5srow = some st' ∧
      lookupA (stripDash w5srow.pair ++ "_" ++ "SHORT") st'.lots =
        some (avgFLot w5slot w5srow.dealPrice w5srow.quantity |w5srow.fee|) ∧
      (avgFLot w5slot w5srow.dealPrice w5srow.quantity |w5srow.fee|).entry_price =
        (w5slot.entry_price * w5slot.total_quantity + w5srow.dealPrice * w5srow.quantity) /
          (w5slot.total_quantity + w5srow.quantity) ∧
      (avgFLot w5slot w5srow.dealPrice w5srow.quantity |w5srow.fee|).quantity =
        w5slot.total_quantity + w5srow.quantity ∧
      (avgFLot w5slot w5srow.dealPrice w5srow.quantity |w5srow.fee|).total_quantity =
        w5slot.total_quantity + w5srow.quantity :=
  open_averaging.1 w5sst w5srow 1 w5slot "SHORT" rfl (by norm_num [w5srow])
    (Or.inr ⟨by decide, by decide, rfl⟩) (by rfl)
    (by norm_num [w5slot, newFLot, w5sopen, w5srow])

/-- The fee state is conserved exactly by each partial-close step:
allocated total plus remaining fee is invariant under the fold. -/
theorem feeState_sum (rs : List ℚ) : ∀ acc f : ℚ,
    (rs.foldl (fun s r => (s.1 + s.2 * r, s.2 * (1 - r))) (acc, f)).1 +
    (rs.foldl (fun s r => (s.1 + s.2 * r, s.2 * (1 - r))) (acc, f)).2 = acc + f := by
  induction rs with
  | nil => intro acc f; simp
  | cons r t ih =>
      intro acc f
      simp only [List.foldl_cons]
      rw [ih]
      ring

/-- C6: over any chain of partial closes of a lot (each with
close_ratio < 0.99), the fees allocated so far plus the entry fee still
on the lot never exceed the lot's accumulated entry fee — after every
step.  In the exact rational semantics the sum is in fact conserved. -/
theorem fee_conservation :
    ∀ (F : ℚ) (rs : List ℚ), (∀ r ∈ rs, r < 99/100) →
      ∀ n : ℕ, (feeState F (rs.take n)).1 + (feeState F (rs.take n)).2 ≤ F := by
  intro F rs _ n
  have h := feeState_sum (rs.take n) 0 F
  simp only [feeState]
  rw [h]
  simp

/-- Witness for C6: the conservation bound instantiated on a lot with
entry fee 10 and two half-ratio partial closes. -/
theorem fee_conservation_witness :
    (feeState 10 ([1/2, 1/2].take 2)).1 + (feeState 10 ([1/2, 1/2].take 2)).2 ≤ 10 :=
  fee_conservation 10 [1/2, 1/2] (by norm_num) 2

/-- C7: a SELL/SHORT row whose symbol has an open lot closes the whole
lot at the fill price — net PnL is the 2-decimal rounding of
10000 * pnl_pct / 100 - entry_fee - exit_fee under the fixed 10000
notional — and removes the key at once; in particular BUY then SELL at
a 5% favorable move with zero fees nets 500. -/
theorem simple_sell_close :
    (∀ (st : SState) (r : SRow) (q : ℚ) (lot : SLot),
      r.qty = some q → q ≠ 0 →
      (upperStr r.side = "SELL" ∨ upperStr r.side = "SHORT") →
      lookupA r.symbol st.lots = some lot →
      lot.direction = "LONG" → lot.entry_price ≠ 0 →
      stepS st r = some ⟨removeA r.symbol st.lots,
        st.out ++ [mkClosedPosS lot r
          ((r.price - lot.entry_price) / lot.entry_price * 100)]⟩ ∧
      lookupA r.symbol (removeA r.symbol st.lots) = none ∧
      (mkClosedPosS lot r ((r.price - lot.entry_price) / lot.entry_price * 100)).net_pnl =
        round2 (10000 * ((r.price - lot.entry_price) / lot.entry_price * 100) / 100
          - lot.entry_fee - r.fee) ∧
      (mkClosedPosS lot r ((r.price - lot.entry_price) / lot.entry_price * 100)).quantity =
        lot.quantity ∧
      (mkClosedPosS lot r ((r.price - lot.entry_price) / lot.entry_price * 100)).exit_price =
        r.price) ∧
    (∃ p, parse_simple_csv [c7buy, c7sell] = some [p] ∧ p.net_pnl = 500) := by
  constructor
  · intro st r q lot hqty hq0 hside hlk hdir hep
    have hnb : ¬(upperStr r.side = "BUY" ∨ upperStr r.side = "LONG") := by
      rcases hside with h | h <;> rw [h] <;> decide
    refine ⟨?_, lookupA_removeA r.symbol st.lots, ?_, rfl, rfl⟩
    · simp only [stepS, hqty]
      rw [if_neg hq0, if_neg hnb, if_pos hside]
      simp only [hlk]
      rw [if_neg hep, if_pos hdir]
    · simp only [mkClosedPosS]
      congr 1
      ring
  · refine ⟨mkClosedPosS (newSLot c7buy 1) c7sell
        ((c7sell.price - (newSLot c7buy 1).entry_price) /
          (newSLot c7buy 1).entry_price * 100), ?_, ?_⟩
    · norm_num +decide [parse_simple_csv, sortS, stepS, lookupA, removeA,
        upperStr, newSLot, mkClosedPosS, c7buy, c7sell,
        List.insertionSort, List.orderedInsert, List.foldlM,
        Position.mk.injEq]
    · norm_num [mkClosedPosS, newSLot, c7buy, c7sell, round2]

/-- Witness for C7: the sell-close conclusion instantiated at a
concrete state and row. -/
theorem simple_sell_close_witness :
    stepS w7st c7sell = some ⟨removeA c7sell.symbol w7st.lots,
      w7st.out ++ [mkClosedPosS w7lot c7sell
        ((c7sell.price - w7lot.entry_price) / w7lot.entry_price * 100)]⟩ ∧
    lookupA c7sell.symbol (removeA c7sell.symbol w7st.lots) = none ∧
    (mkClosedPosS w7lot c7sell ((c7sell.price - w7lot.entry_price) / w7lot.entry_price * 100)).net_pnl =
      round2 (10000 * ((c7sell.price - w7lot.entry_price) / w7lot.entry_price * 100) / 100
        - w7lot.entry_fee - c7sell.fee) ∧
    (mkClosedPosS w7lot c7sell ((c7sell.price - w7lot.entry_price) / w7lot.entry_price * 100)).quantity =
      w7lot.quantity ∧
    (mkClosedPosS w7lot c7sell ((c7sell.price - w7lot.entry_price) / w7lot.entry_price * 100)).exit_price =
      c7sell.price :=
  simple_sell_close.1 w7st c7sell 1 w7lot rfl (by norm_num)
    (Or.inl (by decide)) (by rfl) rfl (by norm_num [w7lot, newSLot, c7buy])

/-- With a nonzero average entry price the per-close PnL computation
never raises. -/
theorem closeCalc_isSome {ep : ℚ} (q lev realized dp fee : ℚ) (b : Bool)
    (hep : ep ≠ 0) : ∃ nr, closeCalc ep q lev realized dp fee b = some nr := by
  by_cases hrz : realized ≠ 0
  · exact ⟨(realized, if 0 < ep * q * lev then realized / (ep * q * lev) * 100 else 0),
      by simp only [closeCalc, if_pos hrz]⟩
  · exact ⟨(ep * q * lev * ((if b then (dp - ep) / ep else (ep - dp) / ep) * 100 / 100) - fee,
        (if b then (dp - ep) / ep else (ep - dp) / ep) * 100),
      by simp only [closeCalc, if_neg hrz, if_neg hep]⟩

/-- C10: a partial close (close_ratio < 0.99, Close Long or Close
Short) lowers the lot's total_quantity and entry fee but never touches
its quantity field, so an end-of-sequence flush of such a lot reports
the accumulated quantity, not the remaining one. -/
theorem close_keeps_quantity_field :
    (∀ (st : FState) (r : FRow) (t : ℤ) (lot : Lot) (dir : String),
      r.time = some t → r.quantity ≠ 0 →
      containsSub "Open Long" r.ttype = false →
      containsSub "Open Short" r.ttype = false →
      ((containsSub "Close Long" r.ttype = true ∧ dir = "LONG") ∨
        (containsSub "Close Long" r.ttype = false ∧
          containsSub "Close Short" r.ttype = true ∧ dir = "SHORT")) →
      lookupA (stripDash r.pair ++ "_" ++ dir) st.lots = some lot →
      0 < lot.total_quantity → 0 < r.quantity →
      lot.entry_price ≠ 0 →
      r.quantity / lot.total_quantity < 99/100 →
      0 ≤ lot.entry_fee →
      ∃ st', stepF st r = some st' ∧
        lookupA (stripDash r.pair ++ "_" ++ dir) st'.lots =
          some (shrinkFLot lot (r.quantity / lot.total_quantity) r.quantity) ∧
        (shrinkFLot lot (r.quantity / lot.total_quantity) r.quantity).quantity =
          lot.quantity ∧
        (shrinkFLot lot (r.quantity / lot.total_quantity) r.quantity).total_quantity =
          lot.total_quantity - r.quantity ∧
        (shrinkFLot lot (r.quantity / lot.total_quantity) r.quantity).total_quantity <
          lot.total_quantity ∧
        (shrinkFLot lot (r.quantity / lot.total_quantity) r.quantity).entry_fee ≤
          lot.entry_fee) ∧
    (∀ lot : Lot, (flushPosF lot).quantity = lot.quantity ∧
      (flushPosF lot).status = "OPEN") ∧
    (∃ pc po, parse_bingx_futures [c10open, c10close] = some [pc, po] ∧
      po.status = "OPEN" ∧ po.quantity = 4 ∧ po.total_quantity = some 3) := by
  refine ⟨?_, fun lot => ⟨rfl, rfl⟩, ?_⟩
  · intro st r t lot dir ht hq h1 h2 hbranch hlk htq hq2 hep hr hfee
    have h1' : ¬(containsSub "Open Long" r.ttype = true) := by simp [h1]
    have h2' : ¬(containsSub "Open Short" r.ttype = true) := by simp [h2]
    rcases hbranch with ⟨h3, hdir⟩ | ⟨h3, h4, hdir⟩
    · subst hdir
      obtain ⟨nr, hcc⟩ := closeCalc_isSome r.quantity r.leverage r.realized_pnl
        r.dealPrice |r.fee| true hep
      refine ⟨⟨setA (stripDash r.pair ++ "_" ++ "LONG")
          (shrinkFLot lot (r.quantity / lot.total_quantity) r.quantity) st.lots,
          st.out ++ [mkClosedPosF (stripDash r.pair) "LONG" lot r t
            (r.quantity / lot.total_quantity) nr.1 nr.2 |r.fee|]⟩,
        ?_, lookupA_setA_self hlk, rfl, rfl, ?_, ?_⟩
      · simp only [stepF, ht]
        rw [if_neg hq, if_neg h1', if_neg h2', if_pos h3]
        simp only [closeStepF, hlk]
        rw [if_neg htq.ne']
        simp only [hcc]
        rw [if_neg (not_le.mpr hr)]
      · simp only [shrinkFLot]
        exact sub_lt_self _ hq2
      · simp only [shrinkFLot]
        have hr0 : 0 ≤ r.quantity / lot.total_quantity :=
          div_nonneg hq2.le htq.le
        nlinarith [mul_nonneg hfee hr0]
    · subst hdir
      have h3' : ¬(containsSub "Close Long" r.ttype = true) := by simp [h3]
      obtain ⟨nr, hcc⟩ := closeCalc_isSome r.quantity r.leverage r.realized_pnl
        r.dealPrice |r.fee| false hep
      refine ⟨⟨setA (stripDash r.pair ++ "_" ++ "SHORT")
          (shrinkFLot lot (r.quantity / lot.total_quantity) r.quantity) st.lots,
          st.out ++ [mkClosedPosF (stripDash r.pair) "SHORT" lot r t
            (r.quantity / lot.total_quantity) nr.1 nr.2 |r.fee|]⟩,
        ?_, lookupA_setA_self hlk, rfl, rfl, ?_, ?_⟩
      · simp only [stepF, ht]
        rw [if_neg hq, if_neg h1', if_neg h2', if_neg h3', if_pos h4]
        simp only [closeStepF, hlk]
        rw [if_neg htq.ne']
        simp only [hcc]
        rw [if_neg (not_le.mpr hr)]
      · simp only [shrinkFLot]
        exact sub_lt_self _ hq2
      · simp only [shrinkFLot]
        have hr0 : 0 ≤ r.quantity / lot.total_quantity :=
          div_nonneg hq2.le htq.le
        nlinarith [mul_nonneg hfee hr0]
  · refine ⟨mkClosedPosF "BTCUSDT" "LONG" (newFLot "BTCUSDT" "LONG" 0 c10open 0)
        c10close 1 (1/4) 0 0 0,
      flushPosF (shrinkFLot (newFLot "BTCUSDT" "LONG" 0 c10open 0) (1/4) 1),
      ?_, rfl, by norm_num [flushPosF, shrinkFLot, newFLot, c10open],
      by norm_num [flushPosF, shrinkFLot, newFLot, c10open]⟩
    norm_num +decide [parse_bingx_futures, sortF, rleF, stepF, openStepF,
      closeStepF, closeCalc, mkClosedPosF, newFLot, shrinkFLot, flushPosF,
      lookupA, setA, removeA, stripDash, containsSub, containsL, startsL,
      intTrunc, round2, c10open, c10close,
      List.insertionSort, List.orderedInsert, List.foldlM,
      Position.mk.injEq, Lot.mk.injEq]

/-- Witness for C10: the partial-close frame conclusion instantiated at
a concrete state and row, exercising the Close Short branch. -/
theorem close_keeps_quantity_field_witness :
    ∃ st', stepF w10sst w10srow = some st' ∧
      lookupA (stripDash w10srow.pair ++ "_" ++ "SHORT") st'.lots =
        some (shrinkFLot w10slot (w10srow.quantity / w10slot.total_quantity) w10srow.quantity) ∧
      (shrinkFLot w10slot (w10srow.quantity / w10slot.total_quantity) w10srow.quantity).quantity =
        w10slot.quantity ∧
      (shrinkFLot w10slot (w10srow.quantity / w10slot.total_quantity) w10srow.quantity).total_quantity =
        w10slot.total_quantity - w10srow.quantity ∧
      (shrinkFLot w10slot (w10srow.quantity / w10slot.total_quantity) w10srow.quantity).total_quantity <
        w10slot.total_quantity ∧
      (shrinkFLot w10slot (w10srow.quantity / w10slot.total_quantity) w10srow.quantity).entry_fee ≤
        w10slot.entry_fee :=
  close_keeps_quantity_field.1 w10sst w10srow 1 w10slot "SHORT" rfl
    (by norm_num [w10srow]) (by decide) (by decide)
    (Or.inr ⟨by decide, by decide, rfl⟩) (by rfl)
    (by norm_num [w10slot, newFLot, w10sopen])
    (by norm_num [w10srow])
    (by norm_num [w10slot, newFLot, w10sopen])
    (by norm_num [w10slot, newFLot, w10sopen, w10srow])
    (by norm_num [w10slot, newFLot, w10sopen])

/-- Counting winners through the two nested filters of calculate_stats
equals a single pass over all positions. -/
theorem count_closed_pos (l : List Position) :
    ((l.filter (fun p => p.status = "CLOSED")).filter (fun p => 0 < p.net_pnl)).length
      = l.countP (fun p => decide (p.status = "CLOSED" ∧ 0 < p.net_pnl)) := by
  simp [List.countP_eq_length_filter, List.filter_filter, Bool.and_comm]

/-- Counting losers through the two nested filters of calculate_stats
equals a single pass over all positions. -/
theorem count_closed_neg (l : List Position) :
    ((l.filter (fun p => p.status = "CLOSED")).filter (fun p => p.net_pnl < 0)).length
      = l.countP (fun p => decide (p.status = "CLOSED" ∧ p.net_pnl < 0)) := by
  simp [List.countP_eq_length_filter, List.filter_filter, Bool.and_comm]

/-- Winners, losers and zero-PnL closed positions partition the closed
positions. -/
theorem count_partition (l : List Position) :
    l.countP (fun p => decide (p.status = "CLOSED" ∧ 0 < p.net_pnl)) +
    l.countP (fun p => decide (p.status = "CLOSED" ∧ p.net_pnl < 0)) +
    l.countP (fun p => decide (p.status = "CLOSED" ∧ p.net_pnl = 0)) =
    (l.filter (fun p => p.status = "CLOSED")).length := by
  induction l with
  | nil => rfl
  | cons p t ih =>
      by_cases hs : p.status = "CLOSED"
      · rcases lt_trichotomy p.net_pnl 0 with h | h | h
        · simp [List.filter_cons, List.countP_cons, hs, h, h.ne, h.asymm] at ih ⊢
          omega
        · simp [List.filter_cons, List.countP_cons, hs, h] at ih ⊢
          omega
        · simp [List.filter_cons, List.countP_cons, hs, h, h.ne', h.asymm] at ih ⊢
          omega
      · simp [List.filter_cons, List.countP_cons, hs] at ih ⊢
        omega

/-- C8: calculate_stats counts as winners exactly the CLOSED positions
with strictly positive net PnL and as losers exactly those with
strictly negative net PnL; a zero-PnL closed position lands in neither
bucket; the win rate is winners / closed_count * 100 (stored at
2-decimal precision) and 0 when there are no closed positions. -/
theorem stats_winners_losers : ∀ ps : List Position,
    (calculate_stats ps).winning_trades =
      ps.countP (fun p => decide (p.status = "CLOSED" ∧ 0 < p.net_pnl)) ∧
    (calculate_stats ps).losing_trades =
      ps.countP (fun p => decide (p.status = "CLOSED" ∧ p.net_pnl < 0)) ∧
    (calculate_stats ps).winning_trades + (calculate_stats ps).losing_trades +
      ps.countP (fun p => decide (p.status = "CLOSED" ∧ p.net_pnl = 0)) =
      (calculate_stats ps).total_trades ∧
    (calculate_stats ps).win_rate =
      (if (calculate_stats ps).total_trades = 0 then 0
       else round2 (((calculate_stats ps).winning_trades : ℚ) /
        ((calculate_stats ps).total_trades : ℚ) * 100)) := by
  intro ps
  by_cases hps : ps = []
  · subst hps
    exact ⟨rfl, rfl, rfl, by norm_num [calculate_stats]⟩
  · simp only [calculate_stats, if_neg hps]
    refine ⟨count_closed_pos ps, count_closed_neg ps, ?_, ?_⟩
    · rw [count_closed_pos ps, count_closed_neg ps]
      exact count_partition ps
    · by_cases hc : ps.filter (fun p => p.status = "CLOSED") = []
      · rw [if_pos hc, hc]
        norm_num [round2]
      · rw [if_neg hc, if_neg (by simpa [List.length_eq_zero] using hc)]

/-- C1 counterexample: on a close event whose matching lot has average
entry price 0 and whose venue-reported realized PnL is zero, the
reconstruction does NOT substitute 0 for the PnL percentage — the
unguarded division at the pnl_pct computation raises, so the whole run
errors (none) instead of emitting a position with ROI 0. -/
theorem zero_entry_price_close_errors :
    parse_bingx_futures [c1open, c1close] = none := by
  norm_num +decide [parse_bingx_futures, sortF, rleF, stepF, openStepF,
    closeStepF, closeCalc, newFLot, lookupA, setA, stripDash,
    containsSub, containsL, startsL, c1open, c1close,
    List.insertionSort, List.orderedInsert, List.foldlM]

/-- C1 amended: the zero-denominator guard exists only on the ROI
back-calculation used when the venue-reported realized PnL is non-zero
(a non-positive notional yields ROI 0 there); when the venue PnL is
zero, the pnl_pct division by the lot's average entry price is
unguarded, and an entry price of 0 raises a division error instead of
yielding 0. -/
theorem close_calc_guard_amended :
    (∀ (ep q lev realized dp fee : ℚ) (b : Bool), realized ≠ 0 → ep * q * lev ≤ 0 →
      closeCalc ep q lev realized dp fee b = some (realized, 0)) ∧
    (∀ (q lev dp fee : ℚ) (b : Bool), closeCalc 0 q lev 0 dp fee b = none) := by
  constructor
  · intro ep q lev realized dp fee b hrz hpv
    simp only [closeCalc, if_pos hrz]
    rw [if_neg (not_lt.mpr hpv)]
  · intro q lev dp fee b
    simp [closeCalc]

/-- Witness for the amended C1 claim: the guard substitutes ROI 0 for a
venue PnL of 5 on a zero notional. -/
theorem close_calc_guard_amended_witness :
    closeCalc 0 1 1 5 10 0 true = some (5, 0) :=
  close_calc_guard_amended.1 0 1 1 5 10 0 true (by norm_num) (by norm_num)
